import Mathlib

/-!
Shallow embedding of the ruchess core (src/src-tauri/src/game/{piece,board,state,ai}.rs).

Rust mutation is modelled by explicit state passing: an `&mut self` method
returning `Result<T, String>` becomes a Lean function returning
`Except String T × State`, where the second component is the state after the
call (on an error path it is the state at the moment of the early return, which
for this code is always the input state since every check precedes every write).
Machine integers (`i32`, `usize`) are modelled as `Int`/`Nat`; no arithmetic in
this program approaches the `i32` range except `i32::MIN`/`i32::MAX`, which are
kept as the exact constants `-(2^31)` and `2^31 - 1`.
-/

namespace Ruchess

/-- `PieceType` enum from piece.rs. -/
inductive PieceType where
  | Pawn | Rook | Knight | Bishop | Queen | King
  deriving DecidableEq, Repr

/-- `Color` enum from piece.rs. -/
inductive Color where
  | White | Black
  deriving DecidableEq, Repr

/-- `Color::opposite` from piece.rs. -/
def Color.opposite : Color → Color
  | .White => .Black
  | .Black => .White

/-- `Position` struct from piece.rs (`x`, `y` are `usize`). -/
structure Position where
  x : Nat
  y : Nat
  deriving DecidableEq, Repr

/-- `BOARD_SIZE` constant from board.rs. -/
def BOARD_SIZE : Nat := 8

/-- `Position::apply_delta` from piece.rs: adds an `i32` delta to both
coordinates and returns `none` when the result leaves the 8×8 board. -/
def Position.apply_delta (p : Position) (dx dy : Int) : Option Position :=
  let new_x : Int := (p.x : Int) + dx
  let new_y : Int := (p.y : Int) + dy
  if 0 ≤ new_x ∧ new_x < (BOARD_SIZE : Int) ∧ 0 ≤ new_y ∧ new_y < (BOARD_SIZE : Int) then
    some ⟨new_x.toNat, new_y.toNat⟩
  else
    none

/-- `Piece` struct from piece.rs. -/
structure Piece where
  piece_type : PieceType
  color : Color
  deriving DecidableEq, Repr

/-- `ChessBoard` struct from board.rs: an 8×8 grid of `Option<Piece>` indexed
`[row][col]` (i.e. `[y][x]`), plus the ordered capture list. The Rust fixed
array `[[Option<Piece>; 8]; 8]` is modelled as a list of rows; every board
built by the embedded operations is exactly 8×8, and reads use the same
`[y][x]` order with a default of `none` outside the structure. -/
structure ChessBoard where
  board : List (List (Option Piece))
  captured_pieces : List Piece
  deriving DecidableEq, Repr

/-- Row-major read of the grid, the counterpart of Rust's `self.board[y][x]`
(only ever reached after the `< 8` bounds checks in the source). -/
def ChessBoard.gridGet (b : ChessBoard) (x y : Nat) : Option Piece :=
  ((b.board.getD y []).getD x none)

/-- Row-major write to the grid, the counterpart of `self.board[y][x] = v`. -/
def ChessBoard.gridSet (b : ChessBoard) (x y : Nat) (v : Option Piece) : ChessBoard :=
  { b with board := b.board.set y ((b.board.getD y []).set x v) }

/-- `ChessBoard::new` from board.rs: the standard initial setup, Black on rows
0–1, White on rows 6–7. -/
def ChessBoard.new : ChessBoard :=
  { board :=
      [ [some ⟨.Rook, .Black⟩, some ⟨.Knight, .Black⟩, some ⟨.Bishop, .Black⟩,
         some ⟨.Queen, .Black⟩, some ⟨.King, .Black⟩, some ⟨.Bishop, .Black⟩,
         some ⟨.Knight, .Black⟩, some ⟨.Rook, .Black⟩],
        [some ⟨.Pawn, .Black⟩, some ⟨.Pawn, .Black⟩, some ⟨.Pawn, .Black⟩,
         some ⟨.Pawn, .Black⟩, some ⟨.Pawn, .Black⟩, some ⟨.Pawn, .Black⟩,
         some ⟨.Pawn, .Black⟩, some ⟨.Pawn, .Black⟩],
        [none, none, none, none, none, none, none, none],
        [none, none, none, none, none, none, none, none],
        [none, none, none, none, none, none, none, none],
        [none, none, none, none, none, none, none, none],
        [some ⟨.Pawn, .White⟩, some ⟨.Pawn, .White⟩, some ⟨.Pawn, .White⟩,
         some ⟨.Pawn, .White⟩, some ⟨.Pawn, .White⟩, some ⟨.Pawn, .White⟩,
         some ⟨.Pawn, .White⟩, some ⟨.Pawn, .White⟩],
        [some ⟨.Rook, .White⟩, some ⟨.Knight, .White⟩, some ⟨.Bishop, .White⟩,
         some ⟨.Queen, .White⟩, some ⟨.King, .White⟩, some ⟨.Bishop, .White⟩,
         some ⟨.Knight, .White⟩, some ⟨.Rook, .White⟩] ],
    captured_pieces := [] }

/-- `ChessBoard::get_piece` from board.rs: out-of-range coordinates read as
empty, never an error. -/
def ChessBoard.get_piece (b : ChessBoard) (pos : Position) : Option Piece :=
  if pos.x ≥ 8 ∨ pos.y ≥ 8 then none
  else b.gridGet pos.x pos.y

/-- The "empty or enemy" occupancy tests used by move generation (the same
tests `Square::is_empty_square` / `Square::can_capture_at` perform in
piece.rs, here over the `ChessBoard` grid). A square outside the board is
neither empty nor capturable. -/
def ChessBoard.isEmptyAt (b : ChessBoard) (pos : Position) : Bool :=
  (b.get_piece pos).isNone && decide (pos.x < 8 ∧ pos.y < 8)

/-- Enemy-occupancy test over the `ChessBoard` grid. -/
def ChessBoard.canCaptureAt (b : ChessBoard) (pos : Position) (c : Color) : Bool :=
  match b.get_piece pos with
  | some p => decide (p.color ≠ c)
  | none => false

/-- Fixed-offset move generation (Knight/King): each delta is bounds-checked by
`apply_delta` and admitted when the target is empty or holds the enemy. -/
def ChessBoard.offsetMoves (b : ChessBoard) (moves : List (Int × Int))
    (position : Position) (color : Color) : List Position :=
  moves.filterMap (fun d =>
    match position.apply_delta d.1 d.2 with
    | some new_pos =>
        if b.isEmptyAt new_pos || b.canCaptureAt new_pos color then some new_pos else none
    | none => none)

/-- One ray of sliding move generation: step `step`, `step+1`, … along
`(dx, dy)`, stopping at the board edge, at a friendly piece (excluded) or at an
enemy piece (included). `fuel` only bounds the recursion; the walk always stops
at the edge first, and `fuel = 8` suffices on the 8×8 board. -/
def ChessBoard.lineWalk (b : ChessBoard) (position : Position) (dx dy : Int)
    (color : Color) : Nat → Nat → List Position
  | 0, _ => []
  | fuel + 1, step =>
    let new_x : Int := (position.x : Int) + dx * (step : Int)
    let new_y : Int := (position.y : Int) + dy * (step : Int)
    if 0 ≤ new_x ∧ new_x < (BOARD_SIZE : Int) ∧ 0 ≤ new_y ∧ new_y < (BOARD_SIZE : Int) then
      let new_pos : Position := ⟨new_x.toNat, new_y.toNat⟩
      match b.get_piece new_pos with
      | some piece => if piece.color = color then [] else [new_pos]
      | none => new_pos :: b.lineWalk position dx dy color fuel (step + 1)
    else []

/-- Sliding move generation over a direction set (Rook/Bishop/Queen). -/
def ChessBoard.lineMoves (b : ChessBoard) (directions : List (Int × Int))
    (position : Position) (color : Color) : List Position :=
  directions.flatMap (fun d => b.lineWalk position d.1 d.2 color 8 1)

/-- Modelled from the spec: `Piece::get_valid_moves(pos, board)` is called by
`ChessBoard::calculate_moves_for` and `ChessBoard::is_king_in_check`
(board.rs) but its implementation is not under src/. Modelled from §4.1's
per-piece rules, which coincide with the in-src variant
`Square::calculate_moves` (piece.rs): Knight/King fixed offsets, Pawn forward
steps onto empty squares plus diagonal captures, Rook/Bishop/Queen rays. -/
def Piece.get_valid_moves (piece : Piece) (position : Position) (b : ChessBoard) :
    List Position :=
  match piece.piece_type with
  | .Knight =>
      b.offsetMoves [(2, 1), (2, -1), (-2, 1), (-2, -1), (1, 2), (1, -2), (-1, 2), (-1, -2)]
        position piece.color
  | .Pawn =>
      let direction : Int := if piece.color = .White then -1 else 1
      let start_row : Nat := if piece.color = .White then 6 else 1
      let forward : List Position :=
        match position.apply_delta 0 direction with
        | some new_pos =>
            if b.isEmptyAt new_pos then
              new_pos ::
                (if position.y = start_row then
                  match position.apply_delta 0 (2 * direction) with
                  | some double_pos => if b.isEmptyAt double_pos then [double_pos] else []
                  | none => []
                else [])
            else []
        | none => []
      let captures : List Position :=
        ([-1, 1] : List Int).filterMap (fun dx =>
          match position.apply_delta dx direction with
          | some capture_pos =>
              if b.canCaptureAt capture_pos piece.color then some capture_pos else none
          | none => none)
      forward ++ captures
  | .Rook => b.lineMoves [(0, 1), (1, 0), (0, -1), (-1, 0)] position piece.color
  | .Bishop => b.lineMoves [(1, 1), (1, -1), (-1, -1), (-1, 1)] position piece.color
  | .Queen =>
      b.lineMoves [(1, 1), (1, 0), (1, -1), (0, 1), (0, -1), (-1, 1), (-1, 0), (-1, -1)]
        position piece.color
  | .King =>
      b.offsetMoves [(1, 1), (1, 0), (1, -1), (0, 1), (0, -1), (-1, 1), (-1, 0), (-1, -1)]
        position piece.color

/-- `ChessBoard::calculate_moves_for` from board.rs: empty set when the square
holds no piece, otherwise the piece's pseudo-legal move set. -/
def ChessBoard.calculate_moves_for (b : ChessBoard) (pos : Position) : List Position :=
  match b.get_piece pos with
  | some p => p.get_valid_moves pos b
  | none => []

/-- `ChessBoard::move_piece` from board.rs: bounds and occupancy checks first
(no writes on the error paths), then the capture append and the two grid
writes — destination before source, so a self-move ends with an empty square. -/
def ChessBoard.move_piece (b : ChessBoard) (from_ to_ : Position) :
    Except String Unit × ChessBoard :=
  if from_.x ≥ 8 ∨ from_.y ≥ 8 ∨ to_.x ≥ 8 ∨ to_.y ≥ 8 then
    (.error "Invalid position", b)
  else
    match b.gridGet from_.x from_.y with
    | none => (.error "No piece at source position", b)
    | some piece =>
      let b1 :=
        match b.gridGet to_.x to_.y with
        | some captured => { b with captured_pieces := b.captured_pieces ++ [captured] }
        | none => b
      let b2 := (b1.gridSet to_.x to_.y (some piece)).gridSet from_.x from_.y none
      (.ok (), b2)

/-- `ChessBoard::is_king_in_check` from board.rs: locate the first king of
`color` in row-major order (false when there is none), then ask whether any
enemy piece's pseudo-legal move set contains its square. -/
def ChessBoard.is_king_in_check (b : ChessBoard) (color : Color) : Bool :=
  let king_pos : Option Position :=
    (List.range 8).findSome? (fun y =>
      (List.range 8).findSome? (fun x =>
        match b.gridGet x y with
        | some piece =>
            if piece.piece_type = .King ∧ piece.color = color then some ⟨x, y⟩ else none
        | none => none))
  match king_pos with
  | none => false
  | some kp =>
      (List.range 8).any (fun y =>
        (List.range 8).any (fun x =>
          match b.gridGet x y with
          | some piece =>
              if piece.color ≠ color then
                decide (kp ∈ piece.get_valid_moves ⟨x, y⟩ b)
              else false
          | none => false))

/-- Substring test, the model of Rust's `str::contains(&str)`: some offset of
the haystack starts with the needle. -/
def strContains (hay needle : String) : Bool :=
  (List.range (hay.data.length + 1)).any (fun i => needle.data.isPrefixOf (hay.data.drop i))

/-- Modelled from the spec: the `Display`/`ToString` implementation for
`PieceType` (used as `piece_type.to_string()` in state.rs) is not under src/.
Modelled as returning the variant's name, which is what §4.3's notation rule
(`<PieceLetter>` = first character, Knight = `N`, Pawn = none) and the
`contains("King")` win test in state.rs rely on. -/
def PieceType.to_string : PieceType → String
  | .Pawn => "Pawn"
  | .Rook => "Rook"
  | .Knight => "Knight"
  | .Bishop => "Bishop"
  | .Queen => "Queen"
  | .King => "King"

/-- `GameMode` enum from state.rs. -/
inductive GameMode where
  | LOCAL | AI | MULTIPLAYER
  deriving DecidableEq, Repr

/-- `Difficulty` enum from state.rs. -/
inductive Difficulty where
  | EASY | MEDIUM | HARD
  deriving DecidableEq, Repr

/-- `GameConfig` struct from state.rs. -/
structure GameConfig where
  mode : GameMode
  difficulty : Option Difficulty
  player_color : Option Color
  game_id : Option String
  deriving DecidableEq, Repr

/-- `GameConfig::default` from state.rs. -/
def GameConfig.default : GameConfig :=
  { mode := .LOCAL, difficulty := none, player_color := none, game_id := none }

/-- `GameState` struct from state.rs. -/
structure GameState where
  board : ChessBoard
  current_player : Color
  selected_square : Option Position
  possible_moves : List Position
  game_over : Bool
  winner : Option Color
  is_check : Bool
  config : GameConfig
  move_history : List String
  deriving DecidableEq, Repr

/-- `GameState::new` from state.rs: fresh board, White to move. -/
def GameState.new : GameState :=
  { board := ChessBoard.new
    current_player := .White
    selected_square := none
    possible_moves := []
    game_over := false
    winner := none
    is_check := false
    config := GameConfig.default
    move_history := [] }

/-- `GameState::select_square` from state.rs: pin the square and publish its
move set when it holds a current-player piece, otherwise clear the selection;
returns the published set (empty on the clearing path). -/
def GameState.select_square (s : GameState) (pos : Position) : List Position × GameState :=
  match s.board.get_piece pos with
  | some piece =>
      if piece.color = s.current_player then
        let moves := s.board.calculate_moves_for pos
        (moves, { s with selected_square := some pos, possible_moves := moves })
      else
        ([], { s with selected_square := none, possible_moves := [] })
  | none => ([], { s with selected_square := none, possible_moves := [] })

/-- `GameState::generate_move_notation` from state.rs: files `a`–`h`
left-to-right, ranks `8`–`1` top-to-bottom, piece letter from the piece name
(none for pawns, `N` for knights, first character otherwise), `x` on capture,
`-` otherwise. -/
def GameState.generate_move_note (piece_name : String) (from_ to_ : Position)
    (is_capture : Bool) : String :=
  let files : List Char := ['a', 'b', 'c', 'd', 'e', 'f', 'g', 'h']
  let ranks : List Char := ['8', '7', '6', '5', '4', '3', '2', '1']
  let piece_symbol : String :=
    if strContains piece_name "Pawn" then ""
    else if strContains piece_name "Knight" then "N"
    else String.singleton (piece_name.data.headD 'P')
  let from_file := String.singleton (files.getD from_.x 'a')
  let from_rank := String.singleton (ranks.getD from_.y '8')
  let to_file := String.singleton (files.getD to_.x 'a')
  let to_rank := String.singleton (ranks.getD to_.y '8')
  let capture_symbol : String := if is_capture then "x" else "-"
  piece_symbol ++ from_file ++ from_rank ++ capture_symbol ++ to_file ++ to_rank

/-- `GameState::move_piece_from` from state.rs, the sole move-execution path:
validate the destination against `calculate_moves_for`, delegate the placement
to `ChessBoard::move_piece`, append the notation string, flag a king capture as
game over with the mover as winner, recompute `is_check` for the opponent,
flip the turn, and clear the selection. Every check precedes every write, so
each error path returns the input state. `afterMoveOk` is the success
continuation of `move_piece_from` — everything after the `self.board.move_piece`
delegation succeeds — split out under its own name. -/
def GameState.afterMoveOk (s : GameState) (from_ to_ : Position)
    (source_piece : Piece) (is_capture : Bool) (b : ChessBoard) : GameState :=
  let note := GameState.generate_move_note source_piece.piece_type.to_string
    from_ to_ is_capture
  let s1 := { s with board := b, move_history := s.move_history ++ [note] }
  let s2 :=
    if is_capture then
      match s1.board.captured_pieces.getLast? with
      | some captured =>
          if strContains captured.piece_type.to_string "King" then
            { s1 with game_over := true, winner := some s1.current_player }
          else s1
      | none => s1
    else s1
  let opponent_color : Color :=
    if s2.current_player = .White then .Black else .White
  let s3 := { s2 with is_check := s2.board.is_king_in_check opponent_color }
  let s4 :=
    { s3 with
      current_player :=
        match s3.current_player with
        | .White => .Black
        | .Black => .White }
  { s4 with selected_square := none, possible_moves := [] }

/-- The entry of `GameState::move_piece_from` (state.rs): the containment
check against `calculate_moves_for`, the source-piece lookup, the capture
flag recorded before mutating, the delegation to `ChessBoard::move_piece`,
and on its success the `afterMoveOk` continuation. -/
def GameState.move_piece_from (s : GameState) (from_ to_ : Position) :
    Except String Unit × GameState :=
  if to_ ∉ s.board.calculate_moves_for from_ then (.error "Invalid move", s)
  else
    match s.board.get_piece from_ with
    | none => (.error "No piece at source position", s)
    | some source_piece =>
      let is_capture := (s.board.get_piece to_).isSome
      match s.board.move_piece from_ to_ with
      | (.error e, b) => (.error e, { s with board := b })
      | (.ok _, b) => (.ok (), s.afterMoveOk from_ to_ source_piece is_capture b)

/-- `GameState::move_piece` from state.rs: the destination-only wrapper, failing
when no square is selected. -/
def GameState.move_piece (s : GameState) (to_ : Position) : Except String Unit × GameState :=
  match s.selected_square with
  | some pos => s.move_piece_from pos to_
  | none => (.error "No square selected", s)

/-- The piece-value map from `evaluate_position` (ai.rs); the `HashMap` holds
every variant, so the `unwrap_or(&0)` default is never taken. -/
def piece_values : PieceType → Int
  | .Pawn => 100
  | .Knight => 300
  | .Bishop => 300
  | .Rook => 500
  | .Queen => 900
  | .King => 10000

/-- `pawn_position_bonus` table from ai.rs, indexed `[y][x]`. -/
def pawn_position_bonus : List (List Int) :=
  [ [0, 0, 0, 0, 0, 0, 0, 0],
    [50, 50, 50, 50, 50, 50, 50, 50],
    [10, 10, 20, 30, 30, 20, 10, 10],
    [5, 5, 10, 25, 25, 10, 5, 5],
    [0, 0, 0, 20, 20, 0, 0, 0],
    [5, -5, -10, 0, 0, -10, -5, 5],
    [5, 10, 10, -20, -20, 10, 10, 5],
    [0, 0, 0, 0, 0, 0, 0, 0] ]

/-- `knight_position_bonus` table from ai.rs, indexed `[y][x]`. -/
def knight_position_bonus : List (List Int) :=
  [ [-50, -40, -30, -30, -30, -30, -40, -50],
    [-40, -20, 0, 0, 0, 0, -20, -40],
    [-30, 0, 10, 15, 15, 10, 0, -30],
    [-30, 5, 15, 20, 20, 15, 5, -30],
    [-30, 0, 15, 20, 20, 15, 0, -30],
    [-30, 5, 10, 15, 15, 10, 5, -30],
    [-40, -20, 0, 5, 5, 0, -20, -40],
    [-50, -40, -30, -30, -30, -30, -40, -50] ]

/-- `bishop_position_bonus` table from ai.rs, indexed `[y][x]`. -/
def bishop_position_bonus : List (List Int) :=
  [ [-20, -10, -10, -10, -10, -10, -10, -20],
    [-10, 0, 0, 0, 0, 0, 0, -10],
    [-10, 0, 10, 10, 10, 10, 0, -10],
    [-10, 5, 5, 10, 10, 5, 5, -10],
    [-10, 0, 5, 10, 10, 5, 0, -10],
    [-10, 10, 10, 10, 10, 10, 10, -10],
    [-10, 5, 0, 0, 0, 0, 5, -10],
    [-20, -10, -10, -10, -10, -10, -10, -20] ]

/-- Row-major table lookup, the counterpart of `table[y][x]`. -/
def tableAt (t : List (List Int)) (y x : Nat) : Int := (t.getD y []).getD x 0

/-- The per-square position bonus computed in `evaluate_position` (ai.rs):
pawn/knight/bishop tables, read as-is for White and with the row mirrored
(`7 - y`) for Black; every other piece type gets 0. -/
def positionBonusOf (piece : Piece) (x y : Nat) : Int :=
  match piece.piece_type with
  | .Pawn => if piece.color = .White then tableAt pawn_position_bonus y x
             else tableAt pawn_position_bonus (7 - y) x
  | .Knight => if piece.color = .White then tableAt knight_position_bonus y x
               else tableAt knight_position_bonus (7 - y) x
  | .Bishop => if piece.color = .White then tableAt bishop_position_bonus y x
               else tableAt bishop_position_bonus (7 - y) x
  | _ => 0

/-- `evaluate_position` from ai.rs: the nested `for y { for x { … } }`
accumulation of signed material-plus-bonus contributions, then the flat 50
point in-check penalty when the side to move is the perspective color. -/
def evaluate_position (state : GameState) (color : Color) : Int :=
  let score :=
    (List.range 8).foldl (fun sc y =>
      (List.range 8).foldl (fun sc x =>
        match state.board.get_piece ⟨x, y⟩ with
        | some piece =>
            let piece_value := piece_values piece.piece_type
            let position_bonus := positionBonusOf piece x y
            if piece.color = color then sc + (piece_value + position_bonus)
            else sc - (piece_value + position_bonus)
        | none => sc) sc) 0
  if state.is_check = true ∧ state.current_player = color then score - 50 else score

/-- The row-major enumeration of every pseudo-legal `(from, to)` pair of the
current player, exactly as the `for y { for x { … } }` loops of
`make_random_move` / `find_best_move` / `minimax` (ai.rs) produce it. -/
def allMovesFor (state : GameState) : List (Position × Position) :=
  (List.range 8).flatMap (fun y =>
    (List.range 8).flatMap (fun x =>
      match state.board.get_piece ⟨x, y⟩ with
      | some piece =>
          if piece.color = state.current_player then
            (state.board.calculate_moves_for ⟨x, y⟩).map (fun t => (⟨x, y⟩, t))
          else []
      | none => []))

/-- The contract of `rand`'s `SliceRandom::choose` (an external crate): `none`
exactly on the empty slice, otherwise some element of the slice; the random
draw is modelled by the extra index `r`, reduced modulo the length. -/
def chooseRand (r : Nat) (l : List α) : Option α :=
  if l.isEmpty then none else l.get? (r % l.length)

/-- `make_random_move` from ai.rs (the Easy tier): enumerate every pseudo-legal
pair of the mover, fail with the no-legal-move error when there is none,
otherwise pick one at random (randomness supplied as `r`) and execute it
through `move_piece_from`. -/
def make_random_move (r : Nat) (state : GameState) : Except String Unit × GameState :=
  let all_moves := allMovesFor state
  if all_moves.isEmpty then (.error "No valid moves for AI", state)
  else
    match chooseRand r all_moves with
    | none => (.error "Failed to select random move", state)
    | some m => state.move_piece_from m.1 m.2

/-- `i32::MIN`. -/
def i32_MIN : Int := -(2 ^ 31)

/-- `i32::MAX`. -/
def i32_MAX : Int := 2 ^ 31 - 1

/-- The inner `for target_pos` loop of the maximizing branch of `minimax`
(ai.rs): fold the per-piece move list updating `best_score` and `alpha`, and
stop early (the Rust `break`, which leaves only this innermost loop) once
`beta ≤ alpha` after an update. `rec` is the recursive call one ply down. -/
def maxMovesLoop (state : GameState) (rec : GameState → Int → Int → Int)
    (pos : Position) (beta : Int) :
    List Position → Int × Int → Int × Int
  | [], acc => acc
  | target_pos :: rest, (best_score, alpha) =>
    match state.move_piece_from pos target_pos with
    | (.ok _, temp_state) =>
        let score := rec temp_state alpha beta
        let best_score := max best_score score
        let alpha := max alpha best_score
        if beta ≤ alpha then (best_score, alpha)
        else maxMovesLoop state rec pos beta rest (best_score, alpha)
    | (.error _, _) => maxMovesLoop state rec pos beta rest (best_score, alpha)

/-- The inner `for target_pos` loop of the minimizing branch of `minimax`
(ai.rs), updating `best_score` and `beta` symmetrically. -/
def minMovesLoop (state : GameState) (rec : GameState → Int → Int → Int)
    (pos : Position) (alpha : Int) :
    List Position → Int × Int → Int × Int
  | [], acc => acc
  | target_pos :: rest, (best_score, beta) =>
    match state.move_piece_from pos target_pos with
    | (.ok _, temp_state) =>
        let score := rec temp_state alpha beta
        let best_score := min best_score score
        let beta := min beta best_score
        if beta ≤ alpha then (best_score, beta)
        else minMovesLoop state rec pos alpha rest (best_score, beta)
    | (.error _, _) => minMovesLoop state rec pos alpha rest (best_score, beta)

/-- `minimax` from ai.rs, recursion structured on the depth: at depth 0 or on a
finished game return the static evaluation from the perspective of the player
to move at that node; otherwise scan the 64 squares in row-major order and run
the per-square alpha-beta move loop (the `break` prunes only within one
square's move list, exactly as in the source). -/
def minimax : Nat → GameState → Bool → Int → Int → Int
  | 0, state, _, _, _ => evaluate_position state state.current_player
  | depth + 1, state, maximizing_player, alpha0, beta0 =>
    if state.game_over then evaluate_position state state.current_player
    else if maximizing_player then
      let rec1 := fun t a b => minimax depth t false a b
      let result :=
        (List.range 8).foldl (fun acc y =>
          (List.range 8).foldl (fun acc x =>
            match state.board.get_piece ⟨x, y⟩ with
            | some piece =>
                if piece.color = state.current_player then
                  maxMovesLoop state rec1 ⟨x, y⟩ beta0
                    (state.board.calculate_moves_for ⟨x, y⟩) acc
                else acc
            | none => acc) acc) (i32_MIN, alpha0)
      result.1
    else
      let rec1 := fun t a b => minimax depth t true a b
      let result :=
        (List.range 8).foldl (fun acc y =>
          (List.range 8).foldl (fun acc x =>
            match state.board.get_piece ⟨x, y⟩ with
            | some piece =>
                if piece.color = state.current_player then
                  minMovesLoop state rec1 ⟨x, y⟩ alpha0
                    (state.board.calculate_moves_for ⟨x, y⟩) acc
                else acc
            | none => acc) acc) (i32_MAX, beta0)
      result.1

/-- `find_best_move` from ai.rs: clone-and-apply every pseudo-legal move of the
mover in enumeration order, score each resulting state with
`minimax(depth - 1, minimizing, i32::MIN, i32::MAX)`, and keep the first
strict maximum. The source's nested `for y { for x { for target … } }` loops
carry the `(best_move, best_score)` pair linearly with no early exit, so they
are written here as one fold over the same row-major enumeration
`allMovesFor`. -/
def find_best_move (state : GameState) (depth : Nat) :
    Except String (Position × Position) :=
  let result :=
    (allMovesFor state).foldl (fun acc m =>
      match state.move_piece_from m.1 m.2 with
      | (.ok _, temp_state) =>
          let score := minimax (depth - 1) temp_state false i32_MIN i32_MAX
          if score > acc.2 then (some m, score) else acc
      | (.error _, _) => acc) ((none : Option (Position × Position)), i32_MIN)
  match result.1 with
  | some m => .ok m
  | none => .error "No valid moves found"

/-- `Square` struct from piece.rs: coordinates plus an optional piece, the cell
type of the `Vec<Vec<Option<Square>>>` board used by `Square::calculate_moves`. -/
structure Square where
  x : Nat
  y : Nat
  piece : Option Piece
  deriving DecidableEq, Repr

/-- The board representation `Square::calculate_moves` works over. -/
abbrev SqBoard := List (List (Option Square))

/-- `Square::is_empty_square` from piece.rs: the cell exists (row and column in
range, entry present) and holds no piece; a missing cell reads as `false`. -/
def Square.is_empty_square (pos : Position) (board : SqBoard) : Bool :=
  match board.get? pos.y with
  | some row =>
      match row.get? pos.x with
      | some (some square) => square.piece.isNone
      | _ => false
  | none => false

/-- `Square::can_capture_at` from piece.rs: the cell exists and holds a piece
of the opposite color. -/
def Square.can_capture_at (pos : Position) (board : SqBoard) (color : Color) : Bool :=
  match board.get? pos.y with
  | some row =>
      match row.get? pos.x with
      | some (some square) =>
          match square.piece with
          | some piece => decide (piece.color ≠ color)
          | none => false
      | _ => false
  | none => false

/-- `Square::add_moves` from piece.rs: fixed offsets through `apply_delta`,
keeping targets that are empty (or, unless `only_empty`, enemy-occupied). -/
def Square.add_moves (moves : List (Int × Int)) (position : Position)
    (board : SqBoard) (color : Color) (only_empty : Bool) : List Position :=
  moves.filterMap (fun d =>
    match position.apply_delta d.1 d.2 with
    | some new_pos =>
        if only_empty then
          if Square.is_empty_square new_pos board then some new_pos else none
        else
          if Square.is_empty_square new_pos board ||
             Square.can_capture_at new_pos board color then some new_pos else none
    | none => none)

/-- One ray of `Square::add_line_moves` from piece.rs: bounds check first, then
stop on a missing cell, on a friendly piece (excluded) or an enemy piece
(included); `fuel = 8` bounds the loop, which the edge check ends no later. -/
def Square.lineWalk (position : Position) (board : SqBoard) (dx dy : Int)
    (color : Color) : Nat → Nat → List Position
  | 0, _ => []
  | fuel + 1, step =>
    let new_x : Int := (position.x : Int) + dx * (step : Int)
    let new_y : Int := (position.y : Int) + dy * (step : Int)
    if 0 ≤ new_x ∧ new_x < (BOARD_SIZE : Int) ∧ 0 ≤ new_y ∧ new_y < (BOARD_SIZE : Int) then
      let new_pos : Position := ⟨new_x.toNat, new_y.toNat⟩
      match board.get? new_y.toNat with
      | some row =>
          match row.get? new_x.toNat with
          | some (some target_square) =>
              match target_square.piece with
              | some piece => if piece.color = color then [] else [new_pos]
              | none => new_pos :: Square.lineWalk position board dx dy color fuel (step + 1)
          | _ => []
      | none => []
    else []

/-- `Square::add_line_moves` from piece.rs over a direction set. -/
def Square.add_line_moves (directions : List (Int × Int)) (position : Position)
    (board : SqBoard) (color : Color) : List Position :=
  directions.flatMap (fun d => Square.lineWalk position board d.1 d.2 color 8 1)

/-- `Square::calculate_moves` from piece.rs: dispatch on the piece type of
`self.piece` (empty set when there is none); the pawn branch is the forward
block (single step onto an empty square, double step nested under it from the
start row) followed by the two diagonal-capture probes `dx = -1, 1`. -/
def Square.calculate_moves (self : Square) (position : Position) (board : SqBoard) :
    List Position :=
  match self.piece with
  | none => []
  | some piece =>
    match piece.piece_type with
    | .Knight =>
        Square.add_moves [(2, 1), (2, -1), (-2, 1), (-2, -1), (1, 2), (1, -2), (-1, 2), (-1, -2)]
          position board piece.color false
    | .Pawn =>
        let direction : Int := if piece.color = .White then -1 else 1
        let start_row : Nat := if piece.color = .White then 6 else 1
        let forward : List Position :=
          match position.apply_delta 0 direction with
          | some new_pos =>
              if Square.is_empty_square new_pos board then
                new_pos ::
                  (if position.y = start_row then
                    match position.apply_delta 0 (2 * direction) with
                    | some double_pos =>
                        if Square.is_empty_square double_pos board then [double_pos] else []
                    | none => []
                  else [])
              else []
          | none => []
        let captures : List Position :=
          ([-1, 1] : List Int).filterMap (fun dx =>
            match position.apply_delta dx direction with
            | some capture_pos =>
                if Square.can_capture_at capture_pos board piece.color then some capture_pos
                else none
            | none => none)
        forward ++ captures
    | .Rook => Square.add_line_moves [(0, 1), (1, 0), (0, -1), (-1, 0)] position board piece.color
    | .Bishop =>
        Square.add_line_moves [(1, 1), (1, -1), (-1, -1), (-1, 1)] position board piece.color
    | .Queen =>
        Square.add_line_moves [(1, 1), (1, 0), (1, -1), (0, 1), (0, -1), (-1, 1), (-1, 0), (-1, -1)]
          position board piece.color
    | .King =>
        Square.add_moves [(1, 1), (1, 0), (1, -1), (0, 1), (0, -1), (-1, 1), (-1, 0), (-1, -1)]
          position board piece.color false

/-! ## Basic inversion and frame lemmas -/

/-- A position produced by `apply_delta` lies on the board. -/
theorem Position.apply_delta_bounds {p : Position} {dx dy : Int} {q : Position}
    (h : p.apply_delta dx dy = some q) : q.x < 8 ∧ q.y < 8 := by
  simp only [Position.apply_delta] at h
  split at h
  · next hc =>
    cases h
    unfold BOARD_SIZE at hc
    constructor <;> simp <;> omega
  · simp at h

/-- Inverting a successful `get_piece`: the coordinates are in range and the
raw grid read agrees. -/
theorem ChessBoard.get_piece_some {b : ChessBoard} {pos : Position} {p : Piece}
    (h : b.get_piece pos = some p) :
    pos.x < 8 ∧ pos.y < 8 ∧ b.gridGet pos.x pos.y = some p := by
  unfold ChessBoard.get_piece at h
  split at h
  · simp at h
  · next hb => exact ⟨by omega, by omega, h⟩

/-- `ChessBoard::move_piece` either succeeds or returns its input board: every
check precedes every write. -/
theorem ChessBoard.move_piece_frame_or (b : ChessBoard) (f t : Position) :
    (b.move_piece f t).1 = .ok () ∨ (b.move_piece f t).2 = b := by
  unfold ChessBoard.move_piece
  split
  · right; rfl
  · split
    · right; rfl
    · left; rfl

/-- The computation `ChessBoard::move_piece` performs when both positions are
in range and the source is occupied: append any capture, write the
destination, then clear the source. -/
theorem ChessBoard.move_piece_ok_eq (b : ChessBoard) (f t : Position) (p : Piece)
    (hfx : f.x < 8) (hfy : f.y < 8) (htx : t.x < 8) (hty : t.y < 8)
    (hg : b.gridGet f.x f.y = some p) :
    b.move_piece f t =
      (.ok (), ((match b.gridGet t.x t.y with
                 | some captured => { b with captured_pieces := b.captured_pieces ++ [captured] }
                 | none => b).gridSet t.x t.y (some p)).gridSet f.x f.y none) := by
  unfold ChessBoard.move_piece
  rw [if_neg (by omega)]
  rw [hg]

/-- `GameState::move_piece_from` either succeeds or returns its input state. -/
theorem GameState.move_piece_from_frame_or (s : GameState) (f t : Position) :
    (s.move_piece_from f t).1 = .ok () ∨ (s.move_piece_from f t).2 = s := by
  unfold GameState.move_piece_from
  split
  · right; rfl
  · split
    · right; rfl
    · split
      · next e b heq =>
        rcases ChessBoard.move_piece_frame_or s.board f t with hok | hfr
        · rw [heq] at hok; simp at hok
        · rw [heq] at hfr; simp only at hfr
          right
          simp only
          rw [hfr]
      · left; rfl

/-- The value `move_piece_from` computes on its success path. -/
theorem GameState.move_piece_from_ok_eq (s : GameState) (f t : Position) (p : Piece)
    (hmem : t ∈ s.board.calculate_moves_for f)
    (hg : s.board.get_piece f = some p)
    (u : Unit) (b : ChessBoard)
    (hmv : s.board.move_piece f t = (.ok u, b)) :
    s.move_piece_from f t =
      (.ok (), s.afterMoveOk f t p ((s.board.get_piece t).isSome) b) := by
  unfold GameState.move_piece_from
  rw [if_neg (not_not_intro hmem), hg, hmv]

/-- Inverting a successful `move_piece_from`: the destination was pseudo-legal,
the source occupied, the board move succeeded, and the result is the
`afterMoveOk` continuation. -/
theorem GameState.move_piece_from_ok_inv (s : GameState) (f t : Position)
    (h : (s.move_piece_from f t).1 = .ok ()) :
    t ∈ s.board.calculate_moves_for f ∧
    ∃ p, s.board.get_piece f = some p ∧
    ∃ b, s.board.move_piece f t = (.ok (), b) ∧
      (s.move_piece_from f t).2 = s.afterMoveOk f t p ((s.board.get_piece t).isSome) b := by
  by_cases hmem : t ∈ s.board.calculate_moves_for f
  · rcases hg : s.board.get_piece f with _ | p
    · unfold GameState.move_piece_from at h
      rw [if_neg (not_not_intro hmem), hg] at h
      simp at h
    · rcases hmv : s.board.move_piece f t with ⟨e | u, b⟩
      · unfold GameState.move_piece_from at h
        rw [if_neg (not_not_intro hmem), hg, hmv] at h
        simp at h
      · cases u
        refine ⟨hmem, p, rfl, b, rfl, ?_⟩
        rw [GameState.move_piece_from_ok_eq s f t p hmem hg () b hmv]
  · unfold GameState.move_piece_from at h
    rw [if_pos hmem] at h
    simp at h

/-- A row of empty squares, used to build the concrete test positions below. -/
def emptyRow : List (Option Piece) := [none, none, none, none, none, none, none, none]

/-! ## Claim C1: capturing a king ends the game for the mover -/

/-- When the last capture was a king, the success continuation flags the game
as over with the (not yet flipped) mover as winner. -/
theorem GameState.afterMoveOk_king (s : GameState) (f t : Position) (sp : Piece)
    (b : ChessBoard) (ck : Color)
    (hlast : b.captured_pieces.getLast? = some ⟨.King, ck⟩) :
    (s.afterMoveOk f t sp true b).game_over = true ∧
    (s.afterMoveOk f t sp true b).winner = some s.current_player := by
  have hk : strContains (Piece.mk .King ck).piece_type.to_string "King" = true := by rfl
  simp only [GameState.afterMoveOk, hlast, if_true, hk]
  simp

/-- Claim C1: if `move_piece_from` succeeds and the destination square held a
king of either color before the move, the resulting state has
`game_over = true` and `winner = some current_player` where `current_player`
is the mover (the value before the call flips the turn). -/
theorem king_capture_ends_game (s : GameState) (f t : Position) (ck : Color)
    (hok : (s.move_piece_from f t).1 = .ok ())
    (hking : s.board.get_piece t = some ⟨.King, ck⟩) :
    (s.move_piece_from f t).2.game_over = true ∧
    (s.move_piece_from f t).2.winner = some s.current_player := by
  obtain ⟨hmem, p, hg, b, hmv, heq⟩ := GameState.move_piece_from_ok_inv s f t hok
  have h1 := ChessBoard.get_piece_some hg
  have h2 := ChessBoard.get_piece_some hking
  have heqmv := ChessBoard.move_piece_ok_eq s.board f t p h1.1 h1.2.1 h2.1 h2.2.1 h1.2.2
  rw [hmv] at heqmv
  have hb2 := ((Prod.mk.injEq _ _ _ _).mp heqmv).2
  rw [h2.2.2] at hb2
  have hbc : b.captured_pieces = s.board.captured_pieces ++ [Piece.mk .King ck] := by
    rw [hb2]
    simp [ChessBoard.gridSet]
  have hlast : b.captured_pieces.getLast? = some ⟨.King, ck⟩ := by
    rw [hbc]
    exact List.getLast?_concat _
  have hcap : (s.board.get_piece t).isSome = true := by rw [hking]; rfl
  rw [heq, hcap]
  exact GameState.afterMoveOk_king s f t p b ck hlast

/-- A white rook on an open file against a lone black king, White to move. -/
def kingCapState : GameState :=
  { board :=
      { board := [ [none, none, none, none, some ⟨.King, .Black⟩, none, none, none],
                   emptyRow, emptyRow, emptyRow,
                   [none, none, none, none, some ⟨.Rook, .White⟩, none, none, none],
                   emptyRow, emptyRow, emptyRow ],
        captured_pieces := [] }
    current_player := .White
    selected_square := none
    possible_moves := []
    game_over := false
    winner := none
    is_check := false
    config := GameConfig.default
    move_history := [] }

/-- Claim C1 witness: the rook at `(4,4)` captures the black king at `(4,0)`;
the game ends with White the winner. -/
theorem king_capture_ends_game_witness :
    (kingCapState.move_piece_from ⟨4, 4⟩ ⟨4, 0⟩).2.game_over = true ∧
    (kingCapState.move_piece_from ⟨4, 4⟩ ⟨4, 0⟩).2.winner = some kingCapState.current_player :=
  king_capture_ends_game kingCapState ⟨4, 4⟩ ⟨4, 0⟩ .Black (by rfl) (by decide)

/-! ## Claim C2: failed moves carry no side effects -/

/-- Claim C2: a `move_piece_from` call that returns an error leaves the
`GameState` — board grid, captured pieces, turn, selection, possible moves,
game-over flag, winner, check flag and history — exactly as it was. -/
theorem move_piece_from_error_no_side_effects (s : GameState) (f t : Position)
    (e : String) (h : (s.move_piece_from f t).1 = .error e) :
    (s.move_piece_from f t).2 = s := by
  rcases GameState.move_piece_from_frame_or s f t with hok | hfr
  · rw [h] at hok; simp at hok
  · exact hfr

/-- Claim C2 witness: moving the rook at `(0,0)` of a fresh game to the
unreachable square `(5,5)` fails and leaves the fresh state intact. -/
theorem move_piece_from_error_no_side_effects_witness :
    (GameState.new.move_piece_from ⟨0, 0⟩ ⟨5, 5⟩).1 = .error "Invalid move" ∧
    (GameState.new.move_piece_from ⟨0, 0⟩ ⟨5, 5⟩).2 = GameState.new :=
  ⟨by rfl, move_piece_from_error_no_side_effects GameState.new ⟨0, 0⟩ ⟨5, 5⟩
    "Invalid move" (by rfl)⟩

/-! ## Claim C6: the error reported for an empty source square -/

/-- Claim C6 counterexample: on a fresh game the square `(0,4)` holds no piece,
yet `move_piece_from` from it fails with the generic invalid-move error — not
with the board's distinct no-piece-at-source error, which this path never
surfaces: an empty source yields an empty move set, so the containment check
fires first. -/
theorem empty_source_error_counterexample :
    GameState.new.board.get_piece ⟨0, 4⟩ = none ∧
    (GameState.new.move_piece_from ⟨0, 4⟩ ⟨0, 3⟩).1 = .error "Invalid move" ∧
    ("Invalid move" : String) ≠ "No piece at source position" :=
  ⟨by decide, by rfl, by decide⟩

/-- Claim C6 (amended): when the source square holds no piece,
`move_piece_from` fails — but with the invalid-move error from the containment
check, because the empty source produces an empty pseudo-legal move set; the
board-level no-piece error is unreachable through `move_piece_from`. -/
theorem empty_source_fails_with_invalid_move (s : GameState) (f t : Position)
    (h : s.board.get_piece f = none) :
    (s.move_piece_from f t).1 = .error "Invalid move" := by
  have hcalc : s.board.calculate_moves_for f = [] := by
    unfold ChessBoard.calculate_moves_for
    rw [h]
  unfold GameState.move_piece_from
  simp [hcalc]

/-- Claim C6 witness: the empty square `(0,4)` of a fresh game. -/
theorem empty_source_fails_with_invalid_move_witness :
    GameState.new.board.get_piece ⟨0, 4⟩ = none ∧
    (GameState.new.move_piece_from ⟨0, 4⟩ ⟨0, 3⟩).1 = .error "Invalid move" :=
  ⟨by decide, empty_source_fails_with_invalid_move GameState.new ⟨0, 4⟩ ⟨0, 3⟩ (by decide)⟩

/-! ## Claim C8: `select_square` behavior and frame -/

/-- Claim C8: `select_square` never touches the board (grid or captures), the
turn, the game-over data, the check flag or the history; when the square holds
a current-player piece it pins the selection and publishes the board's move
set for it (returning that set), and in every other case — empty square,
enemy piece, or the out-of-bounds squares `get_piece` reads as empty — it
clears the selection and returns the empty list, whatever was selected
before. -/
theorem select_square_spec (s : GameState) (pos : Position) :
    ((s.select_square pos).2.board = s.board ∧
     (s.select_square pos).2.current_player = s.current_player ∧
     (s.select_square pos).2.game_over = s.game_over ∧
     (s.select_square pos).2.winner = s.winner ∧
     (s.select_square pos).2.is_check = s.is_check ∧
     (s.select_square pos).2.move_history = s.move_history) ∧
    (∀ p, s.board.get_piece pos = some p → p.color = s.current_player →
      (s.select_square pos).2.selected_square = some pos ∧
      (s.select_square pos).2.possible_moves = s.board.calculate_moves_for pos ∧
      (s.select_square pos).1 = s.board.calculate_moves_for pos) ∧
    ((s.board.get_piece pos = none ∨
      ∃ p, s.board.get_piece pos = some p ∧ p.color ≠ s.current_player) →
      (s.select_square pos).2.selected_square = none ∧
      (s.select_square pos).2.possible_moves = [] ∧
      (s.select_square pos).1 = []) := by
  unfold GameState.select_square
  rcases hg : s.board.get_piece pos with _ | p
  · refine ⟨⟨rfl, rfl, rfl, rfl, rfl, rfl⟩, ?_, ?_⟩
    · intro q hq
      simp at hq
    · intro _
      exact ⟨rfl, rfl, rfl⟩
  · dsimp only
    by_cases hc : p.color = s.current_player
    · rw [if_pos hc]
      refine ⟨⟨rfl, rfl, rfl, rfl, rfl, rfl⟩, ?_, ?_⟩
      · intro q hq hqc
        exact ⟨rfl, rfl, rfl⟩
      · rintro (hn | ⟨q, hq, hqc⟩)
        · simp at hn
        · cases hq
          exact absurd hc hqc
    · rw [if_neg hc]
      refine ⟨⟨rfl, rfl, rfl, rfl, rfl, rfl⟩, ?_, ?_⟩
      · intro q hq hqc
        cases hq
        exact absurd hqc hc
      · intro _
        exact ⟨rfl, rfl, rfl⟩

/-- Claim C8 witness: selecting the white pawn at `(0,6)` of a fresh game pins
it and publishes its move set; selecting the enemy rook at `(0,0)` clears the
selection. -/
theorem select_square_spec_witness :
    ((GameState.new.select_square ⟨0, 6⟩).2.selected_square = some ⟨0, 6⟩ ∧
     (GameState.new.select_square ⟨0, 6⟩).2.possible_moves =
       GameState.new.board.calculate_moves_for ⟨0, 6⟩ ∧
     (GameState.new.select_square ⟨0, 6⟩).1 =
       GameState.new.board.calculate_moves_for ⟨0, 6⟩) ∧
    ((GameState.new.select_square ⟨0, 0⟩).2.selected_square = none ∧
     (GameState.new.select_square ⟨0, 0⟩).2.possible_moves = [] ∧
     (GameState.new.select_square ⟨0, 0⟩).1 = []) :=
  ⟨(select_square_spec GameState.new ⟨0, 6⟩).2.1 ⟨.Pawn, .White⟩ (by decide) (by decide),
   (select_square_spec GameState.new ⟨0, 0⟩).2.2
     (Or.inr ⟨⟨.Rook, .Black⟩, by decide, by decide⟩)⟩

/-! ## Claim C9: what a pinned selection guarantees -/

/-- The operations of the `GameState` turn machine, for reachability
statements: `select_square`, `move_piece` and `move_piece_from`. -/
inductive Op where
  | select (pos : Position)
  | move (to_ : Position)
  | moveFrom (from_ to_ : Position)

/-- Run one operation, keeping the post-state. -/
def applyOp (s : GameState) : Op → GameState
  | .select pos => (s.select_square pos).2
  | .move to_ => (s.move_piece to_).2
  | .moveFrom f t => (s.move_piece_from f t).2

/-- The state reached from a fresh game by a sequence of operations. -/
def runOps (ops : List Op) : GameState := ops.foldl applyOp GameState.new

/-- The selection invariant that actually holds: a pinned square's published
move set is exactly the board's move set for it (which may be empty). -/
def SelInv (s : GameState) : Prop :=
  ∀ pos, s.selected_square = some pos →
    s.possible_moves = s.board.calculate_moves_for pos

/-- `move_piece_from` either leaves the state unchanged (error) or clears the
selection (success). -/
theorem GameState.move_piece_from_sel (s : GameState) (f t : Position) :
    (s.move_piece_from f t).2 = s ∨ (s.move_piece_from f t).2.selected_square = none := by
  rcases GameState.move_piece_from_frame_or s f t with hok | hfr
  · right
    obtain ⟨hmem, p, hg, b, hmv, heq⟩ := GameState.move_piece_from_ok_inv s f t hok
    rw [heq]
    rfl
  · left; exact hfr

/-- Every operation preserves the selection invariant. -/
theorem applyOp_preserves_SelInv (s : GameState) (op : Op) (h : SelInv s) :
    SelInv (applyOp s op) := by
  cases op with
  | select pos =>
      intro q hq
      unfold applyOp GameState.select_square at hq ⊢
      dsimp only at hq ⊢
      rcases hg : s.board.get_piece pos with _ | p
      · rw [hg] at hq
        simp at hq
      · rw [hg] at hq
        dsimp only at hq ⊢
        by_cases hc : p.color = s.current_player
        · rw [if_pos hc] at hq ⊢
          dsimp only at hq ⊢
          cases hq
          rfl
        · rw [if_neg hc] at hq
          simp at hq
  | move to_ =>
      unfold applyOp GameState.move_piece
      dsimp only
      rcases hsel : s.selected_square with _ | pos
      · exact h
      · rcases GameState.move_piece_from_sel s pos to_ with heq | hnone
        · rw [heq]; exact h
        · intro q hq
          rw [hnone] at hq
          simp at hq
  | moveFrom f t =>
      unfold applyOp
      dsimp only
      rcases GameState.move_piece_from_sel s f t with heq | hnone
      · rw [heq]; exact h
      · intro q hq
        rw [hnone] at hq
        simp at hq

/-- Claim C9 (amended): in every state reachable from a fresh game, whenever
`selected_square = some pos` the `possible_moves` sequence is exactly the
board's move set for `pos` — which, contrary to the claim, may be empty. -/
theorem selected_square_pins_board_moves (ops : List Op) (pos : Position)
    (h : (runOps ops).selected_square = some pos) :
    (runOps ops).possible_moves = (runOps ops).board.calculate_moves_for pos := by
  have hmain : ∀ (l : List Op) (s : GameState), SelInv s → SelInv (l.foldl applyOp s) := by
    intro l
    induction l with
    | nil => intro s hs; exact hs
    | cons op rest ih => intro s hs; exact ih _ (applyOp_preserves_SelInv s op hs)
  exact hmain ops GameState.new (fun q hq => by simp [GameState.new] at hq) pos h

/-- Claim C9 counterexample: selecting the white rook at `(0,7)` on a fresh
game pins it with an empty possible-move set — a reachable *selected* state
whose move set is empty. -/
theorem selected_with_empty_moves_counterexample :
    (runOps [Op.select ⟨0, 7⟩]).selected_square = some ⟨0, 7⟩ ∧
    (runOps [Op.select ⟨0, 7⟩]).possible_moves = [] := by
  constructor
  · decide
  · decide

/-- Claim C9 witness: selecting the white pawn at `(4,6)` pins it, and the
invariant gives its published move set. -/
theorem selected_square_pins_board_moves_witness :
    (runOps [Op.select ⟨4, 6⟩]).selected_square = some ⟨4, 6⟩ ∧
    (runOps [Op.select ⟨4, 6⟩]).possible_moves =
      (runOps [Op.select ⟨4, 6⟩]).board.calculate_moves_for ⟨4, 6⟩ :=
  ⟨by decide, selected_square_pins_board_moves [Op.select ⟨4, 6⟩] ⟨4, 6⟩ (by decide)⟩

/-! ## Claim C10: a self-move captures the piece itself -/

/-- The number of pieces on the grid. -/
def ChessBoard.pieceCount (b : ChessBoard) : Nat :=
  (b.board.map (fun row => row.countP (fun c => c.isSome))).sum

/-- Overwriting an occupied cell with `none` drops the row count by one. -/
theorem countP_set_none (R : List (Option Piece)) (x : Nat) (p : Piece)
    (h : R.getD x none = some p) :
    (R.set x none).countP (fun c => c.isSome) + 1 = R.countP (fun c => c.isSome) := by
  induction R generalizing x with
  | nil => simp [List.getD] at h
  | cons a rest ih =>
    cases x with
    | zero =>
      rw [List.getD_cons_zero] at h
      subst h
      simp [List.countP_cons]
    | succ n =>
      rw [List.getD_cons_succ] at h
      have := ih n h
      simp only [List.set_cons_succ, List.countP_cons]
      omega

/-- Overwriting an occupied grid cell with `none` drops the grid count by one. -/
theorem grid_count_set_none (B : List (List (Option Piece))) (x y : Nat) (p : Piece)
    (h : (B.getD y []).getD x none = some p) :
    ((B.set y ((B.getD y []).set x none)).map (fun row => row.countP (fun c => c.isSome))).sum + 1
      = (B.map (fun row => row.countP (fun c => c.isSome))).sum := by
  induction B generalizing y with
  | nil => simp [List.getD] at h
  | cons R rest ih =>
    cases y with
    | zero =>
      rw [List.getD_cons_zero] at h ⊢
      simp only [List.set_cons_zero, List.map_cons, List.sum_cons]
      have := countP_set_none R x p h
      omega
    | succ n =>
      rw [List.getD_cons_succ] at h ⊢
      simp only [List.set_cons_succ, List.map_cons, List.sum_cons]
      have := ih n h
      omega


/-- A successful raw grid read pins both indices inside the list structure. -/
theorem gridGet_some_lt {b : ChessBoard} {x y : Nat} {p : Piece}
    (h : b.gridGet x y = some p) :
    y < b.board.length ∧ x < (b.board.getD y []).length := by
  unfold ChessBoard.gridGet at h
  constructor
  · by_contra hy
    rw [List.getD_eq_default b.board [] (by omega)] at h
    simp [List.getD] at h
  · by_contra hx
    rw [List.getD_eq_default (b.board.getD y []) none (by omega)] at h
    simp at h

/-- Reading back the cell just written. -/
theorem gridGet_gridSet_same (b : ChessBoard) (x y : Nat) (v : Option Piece)
    (hy : y < b.board.length) (hx : x < (b.board.getD y []).length) :
    (b.gridSet x y v).gridGet x y = v := by
  unfold ChessBoard.gridSet ChessBoard.gridGet
  simp only
  rw [List.getD_eq_getElem?_getD (b.board.set y ((b.board.getD y []).set x v)) y [],
    List.getElem?_set_eq_of_lt _ (by simpa using hy)]
  simp only [Option.getD_some]
  rw [List.getD_eq_getElem?_getD, List.getElem?_set_eq_of_lt _ (by simpa using hx)]
  rfl

/-- Two writes to the same cell collapse to the second. -/
theorem gridSet_gridSet (b : ChessBoard) (x y : Nat) (v w : Option Piece)
    (hy : y < b.board.length) :
    (b.gridSet x y v).gridSet x y w = b.gridSet x y w := by
  simp only [ChessBoard.gridSet]
  congr 1
  have hget : (b.board.set y ((b.board.getD y []).set x v)).getD y []
      = (b.board.getD y []).set x v := by
    rw [List.getD_eq_getElem?_getD (b.board.set y ((b.board.getD y []).set x v)) y [],
      List.getElem?_set_eq_of_lt _ (by simpa using hy)]
    rfl
  rw [hget, List.set_set, List.set_set]

/-- `pieceCount` after clearing an occupied cell. -/
theorem pieceCount_gridSet_none (b : ChessBoard) (x y : Nat) (p : Piece)
    (h : b.gridGet x y = some p) :
    (b.gridSet x y none).pieceCount + 1 = b.pieceCount := by
  unfold ChessBoard.pieceCount ChessBoard.gridSet ChessBoard.gridGet at *
  exact grid_count_set_none b.board x y p h


/-- Claim C10 (amended): `move_piece(p, p)` on an occupied in-bounds square
returns `Ok`, appends the very piece standing there to `captured_pieces`, and
leaves `p` empty (destination is written before the source is cleared, so the
piece vanishes from the grid) — but, contrary to the claim's last clause, the
total of pieces in play plus captures *is* preserved: the piece reappears in
the capture list. -/
theorem self_move_removes_piece (b : ChessBoard) (p : Position) (piece : Piece)
    (hg : b.get_piece p = some piece) :
    (b.move_piece p p).1 = .ok () ∧
    (b.move_piece p p).2.captured_pieces = b.captured_pieces ++ [piece] ∧
    (b.move_piece p p).2.get_piece p = none ∧
    (b.move_piece p p).2.pieceCount + (b.move_piece p p).2.captured_pieces.length
      = b.pieceCount + b.captured_pieces.length := by
  obtain ⟨hx, hy, hgrid⟩ := ChessBoard.get_piece_some hg
  obtain ⟨hylen, hxlen⟩ := gridGet_some_lt hgrid
  have heq := ChessBoard.move_piece_ok_eq b p p piece hx hy hx hy hgrid
  rw [hgrid] at heq
  set b1 : ChessBoard := { b with captured_pieces := b.captured_pieces ++ [piece] } with hb1
  have hb1grid : (b1.gridSet p.x p.y (some piece)).gridSet p.x p.y none
      = b1.gridSet p.x p.y none :=
    gridSet_gridSet b1 p.x p.y (some piece) none hylen
  have heq2 : b.move_piece p p = (.ok (), b1.gridSet p.x p.y none) := by
    rw [heq]
    simp only [hb1grid]
  rw [heq2]
  refine ⟨rfl, ?_, ?_, ?_⟩
  · simp [ChessBoard.gridSet, hb1]
  · unfold ChessBoard.get_piece
    rw [if_neg (by omega)]
    exact gridGet_gridSet_same b1 p.x p.y none hylen hxlen
  · have hc : (b1.gridSet p.x p.y none).pieceCount + 1 = b1.pieceCount :=
      pieceCount_gridSet_none b1 p.x p.y piece (by rw [hb1]; exact hgrid)
    have hpc : b1.pieceCount = b.pieceCount := by rw [hb1]; rfl
    have hlen : (b1.gridSet p.x p.y none).captured_pieces.length
        = b.captured_pieces.length + 1 := by
      simp [ChessBoard.gridSet, hb1]
    simp only
    omega


/-- A board holding a single white pawn at `(0,0)`. -/
def lonePawnBoard : ChessBoard :=
  { board := [ [some ⟨.Pawn, .White⟩, none, none, none, none, none, none, none],
               emptyRow, emptyRow, emptyRow, emptyRow, emptyRow, emptyRow, emptyRow ],
    captured_pieces := [] }

/-- Claim C10 counterexample: for the single-pawn board, the self-move
`move_piece((0,0), (0,0))` succeeds and the total count of pieces in play plus
captures is preserved (0 + 1 = 1 + 0), refuting the claim's assertion that
this total is not preserved in the self-move edge case. -/
theorem self_move_count_counterexample :
    (lonePawnBoard.move_piece ⟨0, 0⟩ ⟨0, 0⟩).1 = .ok () ∧
    (lonePawnBoard.move_piece ⟨0, 0⟩ ⟨0, 0⟩).2.pieceCount +
        (lonePawnBoard.move_piece ⟨0, 0⟩ ⟨0, 0⟩).2.captured_pieces.length
      = lonePawnBoard.pieceCount + lonePawnBoard.captured_pieces.length :=
  ⟨by rfl, by decide⟩

/-- Claim C10 witness: the single-pawn board self-move, all four conclusions
evaluated. -/
theorem self_move_removes_piece_witness :
    (lonePawnBoard.move_piece ⟨0, 0⟩ ⟨0, 0⟩).1 = .ok () ∧
    (lonePawnBoard.move_piece ⟨0, 0⟩ ⟨0, 0⟩).2.captured_pieces
      = lonePawnBoard.captured_pieces ++ [⟨.Pawn, .White⟩] ∧
    (lonePawnBoard.move_piece ⟨0, 0⟩ ⟨0, 0⟩).2.get_piece ⟨0, 0⟩ = none ∧
    (lonePawnBoard.move_piece ⟨0, 0⟩ ⟨0, 0⟩).2.pieceCount +
        (lonePawnBoard.move_piece ⟨0, 0⟩ ⟨0, 0⟩).2.captured_pieces.length
      = lonePawnBoard.pieceCount + lonePawnBoard.captured_pieces.length :=
  self_move_removes_piece lonePawnBoard ⟨0, 0⟩ ⟨.Pawn, .White⟩ (by decide)

/-! ## Claim C4: the static evaluator as a signed sum -/

/-- The claim's per-square quantity, written from the spec's words for the
refinement comparison: `+value` for a perspective-color piece, `-value`
otherwise, `value = material + position bonus` (tables mirrored for Black),
`0` for an empty square. -/
def signedContribution (state : GameState) (color : Color) (x y : Nat) : Int :=
  match state.board.get_piece ⟨x, y⟩ with
  | some piece =>
      if piece.color = color then piece_values piece.piece_type + positionBonusOf piece x y
      else -(piece_values piece.piece_type + positionBonusOf piece x y)
  | none => 0

/-- The claim's formulation of the evaluator, written from the spec's words
for the refinement comparison: the sum over all squares of the signed
contribution, minus a flat 50 exactly when the side to move equals the
perspective color and is in check. -/
def evaluate_position_spec (state : GameState) (color : Color) : Int :=
  (((List.range 8).map (fun y =>
      ((List.range 8).map (fun x => signedContribution state color x y)).sum)).sum)
    - (if state.is_check = true ∧ state.current_player = color then 50 else 0)

/-- A left fold that only ever adds a per-element quantity is the sum. -/
theorem foldl_add_of_eq {α : Type} (l : List α) (g : Int → α → Int) (f : α → Int) (a : Int)
    (h : ∀ acc x, g acc x = acc + f x) :
    l.foldl g a = a + (l.map f).sum := by
  induction l generalizing a with
  | nil => simp
  | cons x xs ih =>
    simp only [List.foldl_cons, List.map_cons, List.sum_cons, h, ih]
    ring

/-- Claim C4: `evaluate_position` equals the signed-contribution sum with the
50-point check penalty, exactly as the claim states it. -/
theorem evaluate_position_eq_spec (state : GameState) (color : Color) :
    evaluate_position state color = evaluate_position_spec state color := by
  unfold evaluate_position evaluate_position_spec
  rw [foldl_add_of_eq (List.range 8) _
      (fun y => ((List.range 8).map (fun x => signedContribution state color x y)).sum) 0
      (fun acc y => ?_)]
  · by_cases hchk : state.is_check = true ∧ state.current_player = color
    · rw [if_pos hchk, if_pos hchk]
      ring
    · rw [if_neg hchk, if_neg hchk]
      ring
  · rw [foldl_add_of_eq (List.range 8) _
        (fun x => signedContribution state color x y) acc (fun acc2 x => ?_)]
    rcases hga : state.board.get_piece ⟨x, y⟩ with _ | piece
    · simp [signedContribution, hga]
    · simp only [signedContribution, hga]
      by_cases hc : piece.color = color
      · rw [if_pos hc, if_pos hc]
      · rw [if_neg hc, if_neg hc]
        ring

/-! ## Claim C5: what depth-1 search actually maximizes -/

/-- The claim's greedy procedure, written from the spec's words for the
refinement comparison: enumerate every pseudo-legal move in the same
row-major order and keep the first move maximizing the static evaluation of
the resulting state, the perspective supplied by `persp` (the claim says the
mover's; the code's leaf uses the resulting state's player to move). -/
def first_max_one_ply (state : GameState) (persp : GameState → Color) :
    Except String (Position × Position) :=
  let result :=
    (allMovesFor state).foldl (fun acc m =>
      match state.move_piece_from m.1 m.2 with
      | (.ok _, temp_state) =>
          let score := evaluate_position temp_state (persp temp_state)
          if score > acc.2 then (some m, score) else acc
      | (.error _, _) => acc) ((none : Option (Position × Position)), i32_MIN)
  match result.1 with
  | some m => .ok m
  | none => .error "No valid moves found"

/-- Claim C5 (amended): at depth 1, `find_best_move` reduces to the greedy
one-ply pick — but with the leaf evaluated from the perspective of the player
to move in the *resulting* state (`minimax(…, 0, …)` returns
`evaluate_position(state, state.current_player)` and the turn has already
flipped), i.e. the mover's opponent, not the mover. -/
theorem find_best_move_depth_one (state : GameState) :
    find_best_move state 1 = first_max_one_ply state (fun t => t.current_player) := by
  rfl

/-- A white rook on an open file against a black queen it could capture,
White to move. -/
def rookQueenState : GameState :=
  { board :=
      { board := [ [some ⟨.Rook, .White⟩, none, none, none, none, none, none, none],
                   emptyRow, emptyRow,
                   [some ⟨.Queen, .Black⟩, none, none, none, none, none, none, none],
                   emptyRow, emptyRow, emptyRow, emptyRow ],
        captured_pieces := [] }
    current_player := .White
    selected_square := none
    possible_moves := []
    game_over := false
    winner := none
    is_check := false
    config := GameConfig.default
    move_history := [] }

/-- Claim C5 counterexample: with the rook able to take the queen, depth-1
`find_best_move` picks the quiet move `(0,0)→(0,1)` (it maximizes the
opponent-perspective leaf evaluation), while the claim's mover-perspective
greedy picks the capture `(0,0)→(0,3)`; the two differ on a state with
pseudo-legal moves available. -/
theorem find_best_move_not_mover_greedy_counterexample :
    allMovesFor rookQueenState ≠ [] ∧
    find_best_move rookQueenState 1 = .ok (⟨0, 0⟩, ⟨0, 1⟩) ∧
    first_max_one_ply rookQueenState (fun _ => rookQueenState.current_player)
      = .ok (⟨0, 0⟩, ⟨0, 3⟩) ∧
    ((⟨0, 0⟩, ⟨0, 1⟩) : Position × Position) ≠ (⟨0, 0⟩, ⟨0, 3⟩) :=
  ⟨by decide, by rfl, by rfl, by decide⟩

/-! ## Claim C7: the Easy AI errs exactly when the mover has no move -/

/-- Offset-generated moves lie on the board (`apply_delta` bounds-checks). -/
theorem ChessBoard.offsetMoves_bounds {b : ChessBoard} {moves : List (Int × Int)}
    {position : Position} {color : Color} {t : Position}
    (h : t ∈ b.offsetMoves moves position color) : t.x < 8 ∧ t.y < 8 := by
  unfold ChessBoard.offsetMoves at h
  rw [List.mem_filterMap] at h
  obtain ⟨d, hd, heq⟩ := h
  rcases had : position.apply_delta d.1 d.2 with _ | q
  · rw [had] at heq; simp at heq
  · rw [had] at heq
    dsimp only at heq
    by_cases hocc : (b.isEmptyAt q || b.canCaptureAt q color) = true
    · rw [if_pos hocc] at heq
      cases heq
      exact Position.apply_delta_bounds had
    · rw [if_neg hocc] at heq
      simp at heq

/-- Ray-generated moves lie on the board (the edge check precedes the push). -/
theorem ChessBoard.lineWalk_bounds {b : ChessBoard} {position : Position} {dx dy : Int}
    {color : Color} :
    ∀ fuel step t, t ∈ b.lineWalk position dx dy color fuel step → t.x < 8 ∧ t.y < 8 := by
  intro fuel
  induction fuel with
  | zero => intro step t h; simp [ChessBoard.lineWalk] at h
  | succ n ih =>
    intro step t h
    simp only [ChessBoard.lineWalk] at h
    split at h
    · next hb =>
      unfold BOARD_SIZE at hb
      split at h
      · split at h
        · simp at h
        · simp at h
          subst h
          constructor <;> simp <;> omega
      · rcases List.mem_cons.mp h with h1 | h2
        · subst h1
          constructor <;> simp <;> omega
        · exact ih _ _ h2
    · simp at h


/-- Every generated pseudo-legal move lies on the board. -/
theorem Piece.get_valid_moves_bounds {p : Piece} {pos : Position} {b : ChessBoard}
    {t : Position} (h : t ∈ p.get_valid_moves pos b) : t.x < 8 ∧ t.y < 8 := by
  unfold Piece.get_valid_moves at h
  rcases hpt : p.piece_type <;> rw [hpt] at h <;> dsimp only at h
  case Knight => exact ChessBoard.offsetMoves_bounds h
  case King => exact ChessBoard.offsetMoves_bounds h
  case Rook =>
    rw [ChessBoard.lineMoves, List.mem_flatMap] at h
    obtain ⟨d, _, hmem⟩ := h
    exact ChessBoard.lineWalk_bounds _ _ _ hmem
  case Bishop =>
    rw [ChessBoard.lineMoves, List.mem_flatMap] at h
    obtain ⟨d, _, hmem⟩ := h
    exact ChessBoard.lineWalk_bounds _ _ _ hmem
  case Queen =>
    rw [ChessBoard.lineMoves, List.mem_flatMap] at h
    obtain ⟨d, _, hmem⟩ := h
    exact ChessBoard.lineWalk_bounds _ _ _ hmem
  case Pawn =>
    rw [List.mem_append] at h
    rcases h with hf | hc
    · rcases had : pos.apply_delta 0 (if p.color = .White then -1 else 1) with _ | q
      · rw [had] at hf; simp at hf
      · rw [had] at hf
        dsimp only at hf
        by_cases hemp : b.isEmptyAt q = true
        · rw [if_pos hemp] at hf
          rcases List.mem_cons.mp hf with h1 | h2
          · subst h1; exact Position.apply_delta_bounds had
          · by_cases hsr : pos.y = (if p.color = .White then 6 else 1)
            · rw [if_pos hsr] at h2
              rcases had2 : pos.apply_delta 0 (2 * if p.color = .White then -1 else 1)
                  with _ | q2
              · rw [had2] at h2; simp at h2
              · rw [had2] at h2
                dsimp only at h2
                by_cases hemp2 : b.isEmptyAt q2 = true
                · rw [if_pos hemp2] at h2
                  simp at h2
                  subst h2
                  exact Position.apply_delta_bounds had2
                · rw [if_neg hemp2] at h2
                  simp at h2
            · rw [if_neg hsr] at h2
              simp at h2
        · rw [if_neg hemp] at hf
          simp at hf
    · rw [List.mem_filterMap] at hc
      obtain ⟨dx, _, heq⟩ := hc
      rcases had : pos.apply_delta dx (if p.color = .White then -1 else 1) with _ | q
      · rw [had] at heq; simp at heq
      · rw [had] at heq
        dsimp only at heq
        by_cases hcap : b.canCaptureAt q p.color = true
        · rw [if_pos hcap] at heq
          cases heq
          exact Position.apply_delta_bounds had
        · rw [if_neg hcap] at heq
          simp at heq

/-- Every move published by `calculate_moves_for` lies on the board. -/
theorem ChessBoard.calculate_moves_bounds {b : ChessBoard} {f t : Position}
    (h : t ∈ b.calculate_moves_for f) : t.x < 8 ∧ t.y < 8 := by
  unfold ChessBoard.calculate_moves_for at h
  rcases hg : b.get_piece f with _ | p
  · rw [hg] at h; simp at h
  · rw [hg] at h
    exact Piece.get_valid_moves_bounds h


/-- Membership in the AI's row-major move enumeration: a current-player piece
stands on the source and the target is in its board move set. -/
theorem mem_allMovesFor {s : GameState} {f t : Position} :
    (f, t) ∈ allMovesFor s ↔
      ∃ p, s.board.get_piece f = some p ∧ p.color = s.current_player ∧
        t ∈ s.board.calculate_moves_for f := by
  unfold allMovesFor
  rw [List.mem_flatMap]
  constructor
  · rintro ⟨y, hy, hx⟩
    rw [List.mem_flatMap] at hx
    obtain ⟨x, hxr, hmem⟩ := hx
    rcases hg : s.board.get_piece ⟨x, y⟩ with _ | p
    · rw [hg] at hmem; simp at hmem
    · rw [hg] at hmem
      dsimp only at hmem
      by_cases hc : p.color = s.current_player
      · rw [if_pos hc] at hmem
        rw [List.mem_map] at hmem
        obtain ⟨t2, ht2, heq⟩ := hmem
        obtain ⟨hf, ht⟩ := Prod.mk.injEq .. |>.mp heq
        subst hf
        subst ht
        exact ⟨p, hg, hc, ht2⟩
      · rw [if_neg hc] at hmem
        simp at hmem
  · rintro ⟨p, hg, hc, hmem⟩
    obtain ⟨hfx, hfy, -⟩ := ChessBoard.get_piece_some hg
    refine ⟨f.y, by simp; omega, ?_⟩
    rw [List.mem_flatMap]
    refine ⟨f.x, by simp; omega, ?_⟩
    have hfe : (⟨f.x, f.y⟩ : Position) = f := rfl
    rw [hfe, hg]
    dsimp only
    rw [if_pos hc, List.mem_map]
    exact ⟨t, hmem, rfl⟩

/-- Every enumerated `(from, to)` pair executes successfully: the containment
check passes by construction and both endpoints are in bounds. -/
theorem mem_allMovesFor_ok {s : GameState} {f t : Position}
    (h : (f, t) ∈ allMovesFor s) : (s.move_piece_from f t).1 = .ok () := by
  obtain ⟨p, hg, hc, hmem⟩ := mem_allMovesFor.mp h
  obtain ⟨hfx, hfy, hgrid⟩ := ChessBoard.get_piece_some hg
  obtain ⟨htx, hty⟩ := ChessBoard.calculate_moves_bounds hmem
  have hmv := ChessBoard.move_piece_ok_eq s.board f t p hfx hfy htx hty hgrid
  rw [GameState.move_piece_from_ok_eq s f t p hmem hg () _ hmv]

/-- The enumeration is empty exactly when every own piece has an empty move
set. -/
theorem allMovesFor_eq_nil_iff {s : GameState} :
    allMovesFor s = [] ↔
      ∀ pos p, s.board.get_piece pos = some p → p.color = s.current_player →
        s.board.calculate_moves_for pos = [] := by
  constructor
  · intro hnil pos p hg hc
    rcases hm : s.board.calculate_moves_for pos with _ | ⟨t, rest⟩
    · rfl
    · exfalso
      have : (pos, t) ∈ allMovesFor s :=
        mem_allMovesFor.mpr ⟨p, hg, hc, by rw [hm]; exact List.mem_cons_self t rest⟩
      rw [hnil] at this
      simp at this
  · intro hall
    unfold allMovesFor
    rw [List.flatMap_eq_nil_iff]
    intro y hy
    rw [List.flatMap_eq_nil_iff]
    intro x hx
    rcases hg : s.board.get_piece ⟨x, y⟩ with _ | p
    · simp
    · dsimp only
      by_cases hc : p.color = s.current_player
      · rw [if_pos hc, hall ⟨x, y⟩ p hg hc]
        rfl
      · rw [if_neg hc]


/-- `choose` on a nonempty slice yields one of its elements. -/
theorem chooseRand_mem {α : Type} (r : Nat) (l : List α) (hne : l ≠ []) :
    ∃ m, chooseRand r l = some m ∧ m ∈ l := by
  unfold chooseRand
  rw [if_neg (by simpa using hne)]
  have hlt : r % l.length < l.length :=
    Nat.mod_lt _ (List.length_pos.mpr hne)
  rcases hget : l.get? (r % l.length) with _ | m
  · rw [List.get?_eq_none] at hget
    omega
  · exact ⟨m, rfl, List.get?_mem hget⟩

/-- Claim C7: the Easy (random) AI returns the no-legal-move error iff the
current player has zero pseudo-legal moves across every own piece — its only
error — and on a position with exactly one pseudo-legal pair it executes that
very move whatever the random draw. -/
theorem make_random_move_spec (r : Nat) (s : GameState) :
    ((make_random_move r s).1 = .error "No valid moves for AI" ↔
      ∀ pos p, s.board.get_piece pos = some p → p.color = s.current_player →
        s.board.calculate_moves_for pos = []) ∧
    (∀ f t, allMovesFor s = [(f, t)] → make_random_move r s = s.move_piece_from f t) := by
  constructor
  · constructor
    · intro herr
      apply allMovesFor_eq_nil_iff.mp
      by_contra hne
      have hne2 : allMovesFor s ≠ [] := hne
      unfold make_random_move at herr
      rw [if_neg (by simpa using hne2)] at herr
      obtain ⟨m, hch, hmem⟩ := chooseRand_mem r (allMovesFor s) hne2
      rw [hch] at herr
      dsimp only at herr
      have hok : (s.move_piece_from m.1 m.2).1 = .ok () := mem_allMovesFor_ok (by
        rcases m with ⟨f, t⟩
        exact hmem)
      rw [hok] at herr
      simp at herr
    · intro hall
      have hnil : allMovesFor s = [] := allMovesFor_eq_nil_iff.mpr hall
      unfold make_random_move
      rw [hnil]
      rfl
  · intro f t hone
    unfold make_random_move
    rw [hone]
    have hch : chooseRand r [(f, t)] = some (f, t) := by
      unfold chooseRand
      simp [Nat.mod_one]
    rw [if_neg (by simp), hch]


/-- White has a single pawn whose only pseudo-legal move is the diagonal
capture `(0,6)→(1,5)`: forward is blocked by a black rook and the other
diagonal leaves the board. -/
def onePawnOneMoveState : GameState :=
  { board :=
      { board := [ emptyRow, emptyRow, emptyRow, emptyRow, emptyRow,
                   [some ⟨.Rook, .Black⟩, some ⟨.Rook, .Black⟩, none, none, none, none, none, none],
                   [some ⟨.Pawn, .White⟩, none, none, none, none, none, none, none],
                   emptyRow ],
        captured_pieces := [] }
    current_player := .White
    selected_square := none
    possible_moves := []
    game_over := false
    winner := none
    is_check := false
    config := GameConfig.default
    move_history := [] }

/-- Claim C7 witness: on the one-move position the Easy AI (here with random
draw 5) deterministically plays that move. -/
theorem make_random_move_spec_witness :
    allMovesFor onePawnOneMoveState = [(⟨0, 6⟩, ⟨1, 5⟩)] ∧
    make_random_move 5 onePawnOneMoveState
      = onePawnOneMoveState.move_piece_from ⟨0, 6⟩ ⟨1, 5⟩ :=
  ⟨by decide,
   (make_random_move_spec 5 onePawnOneMoveState).2 ⟨0, 6⟩ ⟨1, 5⟩ (by decide)⟩

/-! ## Claim C3: the pawn move set, characterized exactly -/

/-- Claim C3: for a square holding a pawn of color `c`, membership in
`Square::calculate_moves` holds exactly for: the single forward step
(direction `-1` for White, `+1` for Black) onto an empty square; additionally
the double step when the pawn stands on its start rank (row 6 White / row 1
Black), the intervening square is empty and the target square is empty; and
each diagonal (`dx = ±1`) onto a square occupied by the opposite color — and
nothing else (in particular no en passant and no promotion moves). -/
theorem pawn_calculate_moves_iff (self : Square) (position : Position)
    (board : SqBoard) (c : Color)
    (hp : self.piece = some ⟨.Pawn, c⟩) (to_ : Position) :
    to_ ∈ self.calculate_moves position board ↔
      ((∃ fwd, position.apply_delta 0 (if c = .White then -1 else 1) = some fwd ∧
          Square.is_empty_square fwd board = true ∧
          (to_ = fwd ∨
            (position.y = (if c = .White then 6 else 1) ∧
             position.apply_delta 0 (2 * (if c = .White then -1 else 1)) = some to_ ∧
             Square.is_empty_square to_ board = true))) ∨
        (∃ dx ∈ ([-1, 1] : List Int),
          position.apply_delta dx (if c = .White then -1 else 1) = some to_ ∧
          Square.can_capture_at to_ board c = true)) := by
  unfold Square.calculate_moves
  rw [hp]
  dsimp only
  rw [List.mem_append]
  apply or_congr
  · rcases had : position.apply_delta 0 (if c = .White then -1 else 1) with _ | fwd
    · simp
    · dsimp only
      by_cases hemp : Square.is_empty_square fwd board = true
      · rw [if_pos hemp]
        rw [List.mem_cons]
        constructor
        · rintro (h1 | h2)
          · exact ⟨fwd, rfl, hemp, Or.inl h1⟩
          · by_cases hsr : position.y = (if c = .White then 6 else 1)
            · rw [if_pos hsr] at h2
              rcases had2 : position.apply_delta 0 (2 * (if c = .White then -1 else 1))
                  with _ | q2
              · rw [had2] at h2; simp at h2
              · rw [had2] at h2
                dsimp only at h2
                by_cases hemp2 : Square.is_empty_square q2 board = true
                · rw [if_pos hemp2] at h2
                  rw [List.mem_singleton] at h2
                  subst h2
                  exact ⟨fwd, rfl, hemp, Or.inr ⟨hsr, rfl, hemp2⟩⟩
                · rw [if_neg hemp2] at h2
                  simp at h2
            · rw [if_neg hsr] at h2
              simp at h2
        · rintro ⟨fwd2, hf2, hemp2, h3 | ⟨hsr, had2, hemp3⟩⟩
          · cases hf2
            exact Or.inl h3
          · cases hf2
            right
            rw [if_pos hsr, had2]
            dsimp only
            rw [if_pos hemp3]
            exact List.mem_singleton.mpr rfl
      · rw [if_neg hemp]
        constructor
        · intro h; simp at h
        · rintro ⟨fwd2, hf2, hemp2, -⟩
          cases hf2
          exact absurd hemp2 hemp
  · rw [List.mem_filterMap]
    apply exists_congr
    intro dx
    constructor
    · rintro ⟨hdx, heq⟩
      rcases had : position.apply_delta dx (if c = .White then -1 else 1) with _ | q
      · rw [had] at heq; simp at heq
      · rw [had] at heq
        dsimp only at heq
        by_cases hcap : Square.can_capture_at q board c = true
        · rw [if_pos hcap] at heq
          cases heq
          exact ⟨hdx, rfl, hcap⟩
        · rw [if_neg hcap] at heq
          simp at heq
    · rintro ⟨hdx, had, hcap⟩
      refine ⟨hdx, ?_⟩
      rw [had]
      dsimp only
      rw [if_pos hcap]


/-- A (ragged) board with a single present, empty cell at `(4,5)` — the cell a
white pawn at `(4,6)` steps onto. -/
def pawnWitnessBoard : SqBoard :=
  [ [], [], [], [], [],
    [none, none, none, none, some ⟨4, 5, none⟩, none, none, none] ]

/-- Claim C3 witness: the white pawn at `(4,6)` may step forward onto the
empty `(4,5)`. -/
theorem pawn_calculate_moves_iff_witness :
    (⟨4, 5⟩ : Position) ∈
      Square.calculate_moves ⟨4, 6, some ⟨.Pawn, .White⟩⟩ ⟨4, 6⟩ pawnWitnessBoard :=
  (pawn_calculate_moves_iff ⟨4, 6, some ⟨.Pawn, .White⟩⟩ ⟨4, 6⟩ pawnWitnessBoard .White
      rfl ⟨4, 5⟩).mpr
    (Or.inl ⟨⟨4, 5⟩, by decide, by decide, Or.inl rfl⟩)

end Ruchess
